import Mathlib

/-!
Verification of the redlog printf-style formatting core.

This file gives a shallow embedding, in Lean 4, of the format-string
interpreter of src/include/redlog/redlog.hpp:

- the `std::ostringstream` formatting state the code manipulates
  (basefield, uppercase, floatfield, precision, fill, adjustfield, width)
  is modelled by the structure `OStream`, and each manipulator the code
  uses (std::hex, std::setw, std::setfill, std::left, ...) by a function
  on that structure;
- the heterogeneous template arguments are modelled by the closed variant
  `Value`, whose constructors correspond to the type-trait classification
  the C++ code performs with if-constexpr (string types, const char*,
  arithmetic integral, arithmetic floating, types with an ostream
  operator, unprintable types);
- `double` values are modelled by `Rat`; decimal rendering of a value
  rounds the exact rational (ties half-up), which agrees with the C++
  output on every value considered in the theorems below;
- `stringify`, `format_spec_info.parse`, `format_argument` and
  `stream_printf` are direct translations of the functions of the same
  names, working on `List Char`.

Machine integers are modelled with Nat/Int plus explicit reduction
mod 2^64 (resp. 2^8) where the code casts to unsigned long long
(resp. char).
-/

namespace Redlog

/-! ### Decimal / based digit strings -/

/-- Character for one digit value below 16, lowercase or uppercase
(as produced by an ostream for hex output). -/
def digitChar (upper : Bool) (d : Nat) : Char :=
  if d < 10 then Char.ofNat (48 + d)
  else if upper then Char.ofNat (65 + (d - 10))
  else Char.ofNat (97 + (d - 10))

/-- Digits of `n` in base `b`, most significant first, by fuel recursion
(`fuel ≥ n` suffices since `n / b < n` for `b ≥ 2`).  Empty for `n = 0`. -/
def natToBaseAux (b : Nat) (upper : Bool) : Nat → Nat → List Char
  | 0, _ => []
  | _, 0 => []
  | fuel + 1, n => natToBaseAux b upper fuel (n / b) ++ [digitChar upper (n % b)]

/-- Based representation of `n` as an ostream with basefield `b` prints an
unsigned integer: at least one digit, no sign, no base marker. -/
def natToBase (b : Nat) (upper : Bool) (n : Nat) : List Char :=
  if n = 0 then ['0'] else natToBaseAux b upper n n

/-- Decimal representation of a natural number. -/
def natDec (n : Nat) : List Char := natToBase 10 false n

/-- Decimal representation of an integer, with sign, as an ostream prints
a `long long` with basefield `dec`. -/
def intDec (v : Int) : List Char :=
  if v < 0 then '-' :: natDec v.natAbs else natDec v.natAbs

/-- Numeric value of one hex digit character (used to state the round-trip
properties about the hex/octal output). -/
def hexDigitVal (c : Char) : Nat :=
  if 48 ≤ c.toNat ∧ c.toNat ≤ 57 then c.toNat - 48
  else if 97 ≤ c.toNat ∧ c.toNat ≤ 102 then c.toNat - 87
  else if 65 ≤ c.toNat ∧ c.toNat ≤ 70 then c.toNat - 55
  else 0

/-- Interpret a digit string as a numeral in base `b`. -/
def parseBase (b : Nat) (l : List Char) : Nat :=
  l.foldl (fun acc c => acc * b + hexDigitVal c) 0

/-- Interpret a string as a hexadecimal numeral. -/
def parseHex (s : String) : Nat := parseBase 16 s.data

/-- Interpret a string as an octal numeral. -/
def parseOct (s : String) : Nat := parseBase 8 s.data

/-- Value of a decimal digit string (the effect of `std::stoi` on the
all-digit width/precision substrings the parser extracts). -/
def digitsToNat (l : List Char) : Nat :=
  l.foldl (fun acc c => acc * 10 + (c.toNat - 48)) 0

/-! ### The ostringstream formatting state -/

/-- The float-format state of an ostream: `std::ios::floatfield` cleared
(default), `std::fixed`, or `std::scientific`. -/
inductive FloatFmt where
  | general
  | fixedFmt
  | sciFmt
deriving DecidableEq, Repr

/-- The slice of `std::ostringstream` state that `format_argument`
reads or writes: the accumulated buffer plus the formatting flags. -/
structure OStream where
  buf : List Char := []
  base : Nat := 10
  upper : Bool := false
  ffmt : FloatFmt := .general
  prec : Nat := 6
  fill : Char := ' '
  leftAdj : Bool := false
  width : Nat := 0
deriving DecidableEq, Repr

/-- A fresh `std::ostringstream`. -/
def OStream.init : OStream := {}

/-- Manipulator `std::setw`. -/
def setw (s : OStream) (n : Nat) : OStream := { s with width := n }

/-- Manipulator `std::setfill`. -/
def setfill (s : OStream) (c : Char) : OStream := { s with fill := c }

/-- Manipulator `std::left`. -/
def setLeft (s : OStream) : OStream := { s with leftAdj := true }

/-- Manipulator `std::right`. -/
def setRight (s : OStream) : OStream := { s with leftAdj := false }

/-- Manipulator `std::hex`. -/
def setHex (s : OStream) : OStream := { s with base := 16 }

/-- Manipulator `std::oct`. -/
def setOct (s : OStream) : OStream := { s with base := 8 }

/-- Manipulator `std::dec`. -/
def setDec (s : OStream) : OStream := { s with base := 10 }

/-- Manipulator `std::uppercase`. -/
def setUpper (s : OStream) : OStream := { s with upper := true }

/-- Manipulator `std::nouppercase`. -/
def setNoUpper (s : OStream) : OStream := { s with upper := false }

/-- Manipulator `std::fixed`. -/
def setFixed (s : OStream) : OStream := { s with ffmt := .fixedFmt }

/-- Manipulator `std::scientific`. -/
def setSci (s : OStream) : OStream := { s with ffmt := .sciFmt }

/-- `oss.unsetf(std::ios::fixed)`: clears the fixed bit of floatfield,
leaving a scientific setting alone. -/
def unsetFixed (s : OStream) : OStream :=
  if s.ffmt = .fixedFmt then { s with ffmt := .general } else s

/-- `oss.unsetf(std::ios::scientific)`: clears the scientific bit of
floatfield, leaving a fixed setting alone. -/
def unsetSci (s : OStream) : OStream :=
  if s.ffmt = .sciFmt then { s with ffmt := .general } else s

/-- Manipulator `std::setprecision`. -/
def setPrec (s : OStream) (n : Nat) : OStream := { s with prec := n }

/-- Pad `text` to the stream's field width with the stream's fill
character on the side selected by the adjustfield, append it to the
buffer, and reset the width to 0 — the behaviour shared by every
formatted (`operator<<`) insertion. -/
def OStream.putPadded (s : OStream) (text : List Char) : OStream :=
  let padded :=
    if text.length < s.width then
      if s.leftAdj then text ++ List.replicate (s.width - text.length) s.fill
      else List.replicate (s.width - text.length) s.fill ++ text
    else text
  { s with buf := s.buf ++ padded, width := 0 }

/-- Unformatted output (`result.write(ptr, n)`): no padding, width
untouched. -/
def OStream.writeRaw (s : OStream) (text : List Char) : OStream :=
  { s with buf := s.buf ++ text }

/-- Formatted insertion of a `char` (`oss << c`). -/
def OStream.putChar (s : OStream) (c : Char) : OStream := s.putPadded [c]

/-- Formatted insertion of a string (`oss << std::string`). -/
def OStream.putStr (s : OStream) (t : List Char) : OStream := s.putPadded t

/-- Formatted insertion of an `unsigned long long` already reduced below
2^64: rendered in the stream's basefield with its uppercase flag. -/
def OStream.putULL (s : OStream) (n : Nat) : OStream :=
  s.putPadded (if s.base = 10 then natDec n else natToBase s.base s.upper n)

/-- Formatted insertion of a `long long`: decimal shows a sign; with
basefield `hex`/`oct` an ostream renders the value converted to
`unsigned long long` (reduction mod 2^64). -/
def OStream.putLL (s : OStream) (v : Int) : OStream :=
  if s.base = 10 then s.putPadded (intDec v)
  else s.putPadded (natToBase s.base s.upper ((v.emod (2 ^ 64)).toNat))

/-! ### Decimal rendering of doubles (modelled as rationals)

The C++ code inserts `double` values into the stream; we model a double
by the exact rational it denotes.  Rounding rounds the exact rational,
ties half-up; on every concrete value appearing in the theorems below
this agrees with the C++ output. -/

/-- Round `n / d` (with `d > 0`) to the nearest integer, ties up. -/
def roundHalfUp (n : Int) (d : Nat) : Int :=
  (2 * n + d).fdiv (2 * d)

/-- `round (num / den * 10 ^ k)` for a nonnegative fraction and a signed
power `k`. -/
def scaledRound (num den : Nat) (k : Int) : Nat :=
  if 0 ≤ k then (roundHalfUp (num * 10 ^ k.toNat) den).toNat
  else (roundHalfUp num (den * 10 ^ k.natAbs)).toNat

/-- Decimal exponent of the positive fraction `num / den`: the unique `e`
with `10 ^ e ≤ num / den < 10 ^ (e + 1)`. -/
def exp10 (num den : Nat) : Int :=
  if den ≤ num then ((natDec (num / den)).length - 1 : Nat)
  else
    let f := (natDec (den / num)).length - 1
    if den ≤ num * 10 ^ f then -(f : Int) else -((f : Int) + 1)

/-- Drop trailing `'0'` characters (the trailing-zero removal of the
default float presentation). -/
def stripZeros (l : List Char) : List Char :=
  (l.reverse.dropWhile (· = '0')).reverse

/-- Left-pad a digit string with `'0'` to length `n`. -/
def padZeros (n : Nat) (l : List Char) : List Char :=
  List.replicate (n - l.length) '0' ++ l

/-- Exponent suffix of scientific output: `e`/`E`, a sign, and at least
two exponent digits. -/
def expChars (upper : Bool) (e : Int) : List Char :=
  (if upper then 'E' else 'e') :: (if e < 0 then '-' else '+') :: padZeros 2 (natDec e.natAbs)

/-- Fixed-point rendering of a rational with `prec` fractional digits,
as an ostream with floatfield `fixed` prints a double. -/
def fixedChars (prec : Nat) (q : Rat) : List Char :=
  let sgn := if q.num < 0 then ['-'] else []
  let n := scaledRound q.num.natAbs q.den prec
  let ip := n / 10 ^ prec
  let fp := n % 10 ^ prec
  sgn ++ natDec ip ++ (if prec = 0 then [] else '.' :: padZeros prec (natDec fp))

/-- Scientific rendering of a rational with `prec` mantissa fractional
digits, as an ostream with floatfield `scientific` prints a double. -/
def sciChars (prec : Nat) (upper : Bool) (q : Rat) : List Char :=
  if q = 0 then
    '0' :: (if prec = 0 then [] else '.' :: List.replicate prec '0') ++ expChars upper 0
  else
    let sgn := if q.num < 0 then ['-'] else []
    let e := exp10 q.num.natAbs q.den
    let m := scaledRound q.num.natAbs q.den ((prec : Int) - e)
    let me : Nat × Int := if 10 ^ (prec + 1) ≤ m then (m / 10, e + 1) else (m, e)
    match natDec me.1 with
    | [] => []
    | d0 :: rest =>
      sgn ++ d0 :: (if rest.isEmpty then [] else '.' :: rest) ++ expChars upper me.2

/-- Default-floatfield rendering of a rational with `prec` significant
digits: the `%g`-style presentation an ostream uses for a double when
neither `fixed` nor `scientific` is set (trailing zeros removed,
scientific form for small or large exponents). -/
def genChars (prec : Nat) (upper : Bool) (q : Rat) : List Char :=
  let p := max prec 1
  if q = 0 then ['0']
  else
    let sgn := if q.num < 0 then ['-'] else []
    let e := exp10 q.num.natAbs q.den
    let m := scaledRound q.num.natAbs q.den ((p : Int) - 1 - e)
    let me : Nat × Int := if 10 ^ p ≤ m then (m / 10, e + 1) else (m, e)
    let ds := natDec me.1
    if me.2 < -4 ∨ (p : Int) ≤ me.2 then
      match ds with
      | [] => []
      | d0 :: rest =>
        let rest := stripZeros rest
        sgn ++ d0 :: (if rest.isEmpty then [] else '.' :: rest) ++ expChars upper me.2
    else if 0 ≤ me.2 then
      let ip := ds.take (me.2.toNat + 1)
      let fp := stripZeros (ds.drop (me.2.toNat + 1))
      sgn ++ ip ++ (if fp.isEmpty then [] else '.' :: fp)
    else
      sgn ++ '0' :: '.' :: (List.replicate (me.2.natAbs - 1) '0' ++ stripZeros ds)

/-- Formatted insertion of a `double` (`oss << d`): rendered per the
stream's floatfield, precision and uppercase flag. -/
def OStream.putDouble (s : OStream) (q : Rat) : OStream :=
  match s.ffmt with
  | .general => s.putPadded (genChars s.prec s.upper q)
  | .fixedFmt => s.putPadded (fixedChars s.prec q)
  | .sciFmt => s.putPadded (sciChars s.prec s.upper q)

/-! ### The heterogeneous argument values -/

/-- Closed variant of argument types, one constructor per branch of the
if-constexpr type classification in the C++ `stringify`:
`std::string` / `std::string_view`-convertible values, `const char*`
(possibly null), arithmetic integral values (including `bool` and the
character types, which `std::to_string` prints as integers), arithmetic
floating values, non-arithmetic types with an `operator<<` (carried as
the text that operator produces), and types with none of these
capabilities. -/
inductive Value where
  | strV (s : String)
  | charPtr (s : Option String)
  | intV (v : Int)
  | floatV (q : Rat)
  | streamable (s : String)
  | unprintableV
deriving DecidableEq, Repr

instance : Inhabited Value := ⟨.unprintableV⟩

/-- The value is of an arithmetic type (`std::is_arithmetic_v`). -/
def Value.isArith : Value → Bool
  | .intV _ | .floatV _ => true
  | _ => false

/-- The value is of a native textual type (clauses 1–3 of `stringify`). -/
def Value.isStringType : Value → Bool
  | .strV _ | .charPtr _ => true
  | _ => false

/-- The value's type has an `operator<<` besides the built-in ones
(`has_ostream_operator`). -/
def Value.hasOstreamOp : Value → Bool
  | .streamable _ => true
  | _ => false

/-- `static_cast<long long>(value)` for an arithmetic value: identity on
integers, truncation toward zero on doubles. -/
def castLL : Value → Int
  | .intV v => v
  | .floatV q => if 0 ≤ q.num then q.num.fdiv q.den else -((-q.num).fdiv q.den)
  | _ => 0

/-- `static_cast<unsigned long long>(value)` for an arithmetic value:
conversion to unsigned is reduction mod 2^64. -/
def castULL (v : Value) : Nat := ((castLL v).emod (2 ^ 64)).toNat

/-- `static_cast<double>(value)` for an arithmetic value. -/
def castDouble : Value → Rat
  | .intV v => (v : Rat)
  | .floatV q => q
  | _ => 0

/-- `static_cast<char>(value)` for an arithmetic value: reduction mod
2^8 to a character code. -/
def castChar (v : Value) : Char := Char.ofNat (((castLL v).emod 256).toNat)

/-- Universal type-to-string conversion `stringify`: string types are
returned as-is, a null `const char*` gives `"null"`, arithmetic types go
through `std::to_string`, types with an `operator<<` are written to a
fresh stream, and anything else yields the `"[unprintable]"` sentinel.
`std::to_string(double)` is fixed-point with 6 fractional digits. -/
def stringify : Value → List Char
  | .strV s => s.data
  | .charPtr (some s) => s.data
  | .charPtr none => "null".data
  | .intV v => intDec v
  | .floatV q => fixedChars 6 q
  | .streamable s => s.data
  | .unprintableV => "[unprintable]".data

/-! ### The format-specifier parser -/

/-- Parsed representation of one `%...` specifier (`format_spec_info`).
In the C++ struct `format_char` is left uninitialized when the raw text
is shorter than two characters; the Lean default `' '` stands for that
indeterminate value and no theorem relies on it. -/
structure format_spec_info where
  format_char : Char := ' '
  width : Nat := 0
  precision : Int := -1
  zero_pad : Bool := false
  left_align : Bool := false
deriving DecidableEq, Repr

/-- The flags loop of `format_spec_info::parse`: consume leading `'0'`
and `'-'` characters, accumulating the two flag booleans. -/
def scanFlags : List Char → Bool → Bool → Bool × Bool × List Char
  | '0' :: rest, _, l => scanFlags rest true l
  | '-' :: rest, z, _ => scanFlags rest z true
  | cs, z, l => (z, l, cs)

/-- `format_spec_info::parse`: decompose the raw specifier text (from
`%` through the conversion character inclusive) into a descriptor.
Degenerate input (fewer than 2 characters) returns the defaults; the
conversion character is the last character; flags, then decimal width,
then `.`-introduced decimal precision are scanned from the middle span;
a `.` not followed by a digit leaves `precision` at `-1`. -/
def format_spec_info.parse (format_spec : List Char) : format_spec_info :=
  if format_spec.length < 2 then {}
  else
    let fc := format_spec.getLastD ' '
    let spec_view := (format_spec.drop 1).dropLast
    let fl := scanFlags spec_view false false
    let rest1 := fl.2.2
    let wdigits := rest1.takeWhile Char.isDigit
    let rest2 := rest1.dropWhile Char.isDigit
    let w := if wdigits.isEmpty then 0 else digitsToNat wdigits
    let p : Int :=
      match rest2 with
      | '.' :: r =>
        let pdigits := r.takeWhile Char.isDigit
        if pdigits.isEmpty then -1 else (digitsToNat pdigits : Int)
      | _ => -1
    { format_char := fc, width := w, precision := p,
      zero_pad := fl.1, left_align := fl.2.1 }

/-! ### The per-argument renderer -/

/-- The width block shared by the integral and fixed-float branches of
`format_argument`: `setw`, zero fill unless left-aligned, `std::left`
when left-aligned. -/
def widthZeroBlock (oss : OStream) (info : format_spec_info) : OStream :=
  if 0 < info.width then
    let oss := setw oss info.width
    let oss := if info.zero_pad && !info.left_align then setfill oss '0' else oss
    if info.left_align then setLeft oss else oss
  else oss

/-- The width block of the scientific and string branches of
`format_argument`: `setw` and `std::left` only, no zero fill. -/
def widthOnlyBlock (oss : OStream) (info : format_spec_info) : OStream :=
  if 0 < info.width then
    let oss := setw oss info.width
    if info.left_align then setLeft oss else oss
  else oss

/-- `format_argument`: render one argument into the stream according to
its format specifier, translated branch by branch from the C++ switch
(including each branch's trailing reset manipulators). -/
def format_argument (oss : OStream) (value : Value) (format_spec : List Char) : OStream :=
  if format_spec.length < 2 then oss.putStr (stringify value)
  else
    let spec_info := format_spec_info.parse format_spec
    match spec_info.format_char with
    | 'd' | 'i' =>
      match value with
      | .intV _ | .floatV _ =>
        let oss := widthZeroBlock oss spec_info
        let oss := oss.putLL (castLL value)
        setRight (setfill oss ' ')
      | _ => oss.putStr (stringify value)
    | 'x' =>
      match value with
      | .intV _ | .floatV _ =>
        let oss := setNoUpper (setHex oss)
        let oss := widthZeroBlock oss spec_info
        let oss := setDec (oss.putULL (castULL value))
        setRight (setfill oss ' ')
      | _ => oss.putStr (stringify value)
    | 'X' =>
      match value with
      | .intV _ | .floatV _ =>
        let oss := setUpper (setHex oss)
        let oss := widthZeroBlock oss spec_info
        let oss := setDec (oss.putULL (castULL value))
        setRight (setfill oss ' ')
      | _ => oss.putStr (stringify value)
    | 'o' =>
      match value with
      | .intV _ | .floatV _ =>
        let oss := setOct oss
        let oss := widthZeroBlock oss spec_info
        let oss := setDec (oss.putULL (castULL value))
        setRight (setfill oss ' ')
      | _ => oss.putStr (stringify value)
    | 'f' | 'F' =>
      match value with
      | .intV _ | .floatV _ =>
        let oss := if 0 ≤ spec_info.precision
          then setPrec (setFixed oss) spec_info.precision.toNat else oss
        let oss := widthZeroBlock oss spec_info
        let oss := unsetFixed (oss.putDouble (castDouble value))
        setRight (setfill oss ' ')
      | _ => oss.putStr (stringify value)
    | 'e' | 'E' =>
      match value with
      | .intV _ | .floatV _ =>
        let oss := setSci oss
        let oss := if spec_info.format_char = 'E' then setUpper oss else oss
        let oss := if 0 ≤ spec_info.precision
          then setPrec oss spec_info.precision.toNat else oss
        let oss := widthOnlyBlock oss spec_info
        let oss := unsetSci (oss.putDouble (castDouble value))
        setRight (setfill oss ' ')
      | _ => oss.putStr (stringify value)
    | 'c' =>
      match value with
      | .intV _ | .floatV _ => oss.putChar (castChar value)
      | _ => oss.putStr (stringify value)
    | _ =>
      let oss := widthOnlyBlock oss spec_info
      setRight (oss.putStr (stringify value))

/-! ### The format-string scanner / dispatcher -/

/-- The supported conversion characters: the scanner's
`strchr("diouxXeEfFgGaAcspn", c)` test. -/
def isConvChar (c : Char) : Bool :=
  c = 'd' || c = 'i' || c = 'o' || c = 'u' || c = 'x' || c = 'X' ||
  c = 'e' || c = 'E' || c = 'f' || c = 'F' || c = 'g' || c = 'G' ||
  c = 'a' || c = 'A' || c = 'c' || c = 's' || c = 'p' || c = 'n'

/-- A scanner flag character (`'0'` or `'-'`). -/
def isFlagChar (c : Char) : Bool := c = '0' || c = '-'

/-- Zero-argument fast path of `stream_printf`: find the first `"%%"`
occurrence at index ≥ `pos` (`std::string::find("%%", pos)`), as an
absolute index. -/
def findPPAux : List Char → Nat → Option Nat
  | '%' :: '%' :: _, i => some i
  | _ :: rest, i => findPPAux rest (i + 1)
  | [], _ => none

/-- `s.find("%%", pos)`. -/
def findPP (s : List Char) (pos : Nat) : Option Nat :=
  findPPAux (s.drop pos) pos

/-- Zero-argument fast path of `stream_printf`: the
`while ((pos = result.find("%%", pos)) != npos) { replace(pos, 2, "%"); pos += 1; }`
loop, by fuel recursion (each iteration shrinks the string by one, so
fuel `s.length` suffices). -/
def collapseLoop : Nat → List Char → Nat → List Char
  | 0, s, _ => s
  | fuel + 1, s, pos =>
    match findPP s pos with
    | none => s
    | some i => collapseLoop fuel (s.take i ++ '%' :: s.drop (i + 2)) (i + 1)

/-- `stream_printf` with zero arguments: replace every `"%%"` with `"%"`. -/
def streamPrintfZero (format : List Char) : List Char :=
  collapseLoop format.length format 0

/-- The scanner's specifier scan, phases in source order: skip flags,
skip width digits, skip an optional `'.'` and precision digits, then
skip everything up to a supported conversion character.  Returns the
remainder starting at the conversion character. -/
def specScan (l : List Char) : List Char :=
  let afterFlags := l.dropWhile isFlagChar
  let afterWidth := afterFlags.dropWhile Char.isDigit
  let afterPrec :=
    match afterWidth with
    | '.' :: r => r.dropWhile Char.isDigit
    | _ => afterWidth
  afterPrec.dropWhile (fun c => !isConvChar c)

/-- The general (one or more arguments) scan loop of `stream_printf`:
copy literal text up to each `'%'`, emit `'%'` for `"%%"`, scan a
specifier and dispatch it to `format_argument` with the next positional
argument (or copy it verbatim once the arguments are exhausted), copy a
malformed trailing specifier verbatim.  Fuel recursion; every iteration
consumes at least one template character, so fuel `cs.length` suffices. -/
def scanGo : Nat → List Char → List Value → Nat → OStream → OStream
  | 0, _, _, _, st => st
  | fuel + 1, cs, args, argIdx, st =>
    match cs.dropWhile (· ≠ '%') with
    | [] => st.writeRaw cs
    | '%' :: tail =>
      let st := st.writeRaw (cs.takeWhile (· ≠ '%'))
      match tail with
      | [] => st.putChar '%'
      | '%' :: rest2 => scanGo fuel rest2 args argIdx (st.putChar '%')
      | _ :: _ =>
        match specScan tail with
        | [] => st.writeRaw ('%' :: tail)
        | conv :: rest3 =>
          let format_spec := '%' :: (tail.take (tail.length - (conv :: rest3).length) ++ [conv])
          if h : argIdx < args.length then
            scanGo fuel rest3 args (argIdx + 1)
              (format_argument st (args.get ⟨argIdx, h⟩) format_spec)
          else
            scanGo fuel rest3 args argIdx (st.writeRaw format_spec)
    | _ :: _ => st

/-- `stream_printf`: the single formatting entry point.  The
zero-argument case only collapses `"%%"`; otherwise the scan loop runs
over the template with argument index 0 and a fresh stream. -/
def streamPrintfL (format : List Char) (args : List Value) : List Char :=
  match args with
  | [] => streamPrintfZero format
  | _ :: _ => (scanGo format.length format args 0 OStream.init).buf

/-- String-typed wrapper for `stream_printf`. -/
def streamPrintf (format : String) (args : List Value) : String :=
  (streamPrintfL format.data args).asString

/-- Rendering a single value with one specifier: `format_argument` into
a fresh stream (the `render(value, spec)` of the specification). -/
def render (value : Value) (spec : String) : String :=
  ((format_argument OStream.init value spec.data).buf).asString

/-- Specification-side contract of the zero-argument path, from the
spec's words: every `"%%"` collapses (greedily, left to right) to a
single `"%"` and all other text passes through unchanged.  Used to state
the refinement of `streamPrintfZero`. -/
def collapseSpec : List Char → List Char
  | '%' :: '%' :: rest => '%' :: collapseSpec rest
  | c :: rest => c :: collapseSpec rest
  | [] => []

/-- Relative index of the first `"%%"` occurrence in a character list
(bridge between `std::string::find` and the list structure). -/
def firstPP : List Char → Option Nat
  | '%' :: '%' :: _ => some 0
  | _ :: rest => (firstPP rest).map (· + 1)
  | [] => none

/-- Number of argument-consuming specifiers the scan loop of
`stream_printf` dispatches (same traversal as `scanGo`, counting
instead of rendering). -/
def specCountGo : Nat → List Char → Nat
  | 0, _ => 0
  | fuel + 1, cs =>
    match cs.dropWhile (· ≠ '%') with
    | [] => 0
    | '%' :: tail =>
      match tail with
      | [] => 0
      | '%' :: rest2 => specCountGo fuel rest2
      | _ :: _ =>
        match specScan tail with
        | [] => 0
        | _ :: rest3 => specCountGo fuel rest3 + 1
    | _ :: _ => 0

/-- Number of argument-consuming specifiers in a template. -/
def specCount (t : String) : Nat := specCountGo t.data.length t.data

/-- The double literal `3.14159` (exactly representable as this rational
for the purposes of the rounding performed by the renderer; stated with
an explicit reduced fraction so that proofs can evaluate it). -/
def q3_14159 : Rat := ⟨314159, 100000, by norm_num, by norm_num⟩

/-- The stream-state fields that the specification says are reset after
every rendered specifier: radix, fill character, alignment, pending
width and floatfield are at their defaults. -/
def resetOK (st : OStream) : Prop :=
  st.base = 10 ∧ st.fill = ' ' ∧ st.leftAdj = false ∧ st.width = 0 ∧ st.ffmt = .general

instance (st : OStream) : Decidable (resetOK st) := by
  unfold resetOK; infer_instance

/-! ### Helper lemmas: digit strings -/

theorem digitChar_isDigit {d : Nat} (u : Bool) (h : d < 10) : (digitChar u d).isDigit = true := by
  interval_cases d <;> cases u <;> decide

theorem hexDigitVal_digitChar {d : Nat} (u : Bool) (h : d < 16) :
    hexDigitVal (digitChar u d) = d := by
  interval_cases d <;> cases u <;> decide

theorem digitChar_decimal_val {d : Nat} (h : d < 10) :
    (digitChar false d).toNat - 48 = d := by
  interval_cases d <;> decide

theorem digitChar_not_flag {d : Nat} (u : Bool) (h0 : 0 < d) (h : d < 16) :
    isFlagChar (digitChar u d) = false := by
  interval_cases d <;> cases u <;> decide

theorem natToBaseAux_zero {b : Nat} {u : Bool} (fuel : Nat) :
    natToBaseAux b u fuel 0 = [] := by
  cases fuel <;> rfl

theorem natToBaseAux_succ {b : Nat} {u : Bool} (fuel n : Nat) :
    natToBaseAux b u (fuel + 1) (n + 1) =
      natToBaseAux b u fuel ((n + 1) / b) ++ [digitChar u ((n + 1) % b)] := rfl

theorem mem_natToBaseAux_isDigit {u : Bool} :
    ∀ fuel n, ∀ c ∈ natToBaseAux 10 u fuel n, c.isDigit = true := by
  intro fuel
  induction fuel with
  | zero => intro n c hc; simp [natToBaseAux] at hc
  | succ fuel ih =>
    intro n c hc
    cases n with
    | zero => rw [natToBaseAux_zero] at hc; simp at hc
    | succ n =>
      rw [natToBaseAux_succ] at hc
      rcases List.mem_append.mp hc with h | h
      · exact ih _ c h
      · rcases List.mem_singleton.mp h with rfl
        exact digitChar_isDigit u (Nat.mod_lt _ (by norm_num))

theorem mem_natDec_isDigit {n : Nat} : ∀ c ∈ natDec n, c.isDigit = true := by
  intro c hc
  unfold natDec natToBase at hc
  split at hc
  · rcases List.mem_singleton.mp hc with rfl; decide
  · exact mem_natToBaseAux_isDigit _ _ c hc

theorem natToBaseAux_head {b : Nat} {u : Bool} (hb : 2 ≤ b) :
    ∀ fuel n, 0 < n → n ≤ fuel →
      ∃ d rest, natToBaseAux b u fuel n = digitChar u d :: rest ∧ 0 < d ∧ d < b := by
  intro fuel
  induction fuel with
  | zero => intro n h1 h2; omega
  | succ fuel ih =>
    intro n h1 h2
    cases n with
    | zero => omega
    | succ n =>
      rw [natToBaseAux_succ]
      by_cases hq : (n + 1) / b = 0
      · refine ⟨(n + 1) % b, [], ?_, ?_, Nat.mod_lt _ (by omega)⟩
        · rw [hq, natToBaseAux_zero]; rfl
        · rcases Nat.eq_zero_or_pos ((n + 1) % b) with h | h
          · exfalso
            have hdm := Nat.div_add_mod (n + 1) b
            rw [hq, h] at hdm
            simp at hdm
          · exact h
      · obtain ⟨d, rest, heq, hd1, hd2⟩ :=
          ih ((n + 1) / b) (Nat.pos_of_ne_zero hq)
            (by
              have : (n + 1) / b < n + 1 := Nat.div_lt_self (by omega) (by omega)
              omega)
        exact ⟨d, rest ++ [digitChar u ((n + 1) % b)], by rw [heq]; rfl, hd1, hd2⟩

theorem natDec_head_of_pos {n : Nat} (h : 0 < n) :
    ∃ c rest, natDec n = c :: rest ∧ isFlagChar c = false ∧ c.isDigit = true := by
  unfold natDec natToBase
  rw [if_neg (Nat.pos_iff_ne_zero.mp h)]
  obtain ⟨d, rest, heq, hd1, hd2⟩ := @natToBaseAux_head 10 false (by norm_num) n n h le_rfl
  exact ⟨digitChar false d, rest, heq, digitChar_not_flag false hd1 (by omega),
    digitChar_isDigit false (by omega)⟩

theorem natDec_ne_nil {n : Nat} : natDec n ≠ [] := by
  rcases Nat.eq_zero_or_pos n with rfl | h
  · decide
  · obtain ⟨c, rest, heq, -, -⟩ := natDec_head_of_pos h
    simp [heq]

theorem digitsToNat_append_one (l : List Char) (c : Char) :
    digitsToNat (l ++ [c]) = digitsToNat l * 10 + (c.toNat - 48) := by
  unfold digitsToNat
  rw [List.foldl_append]
  rfl

theorem digitsToNat_natToBaseAux :
    ∀ fuel n, n ≤ fuel → digitsToNat (natToBaseAux 10 false fuel n) = n := by
  intro fuel
  induction fuel with
  | zero => intro n h; interval_cases n; decide
  | succ fuel ih =>
    intro n h
    cases n with
    | zero => rw [natToBaseAux_zero]; decide
    | succ n =>
      rw [natToBaseAux_succ, digitsToNat_append_one,
        ih ((n + 1) / 10)
          (by
            have : (n + 1) / 10 < n + 1 := Nat.div_lt_self (by omega) (by omega)
            omega),
        digitChar_decimal_val (Nat.mod_lt _ (by norm_num))]
      omega

theorem digitsToNat_natDec (n : Nat) : digitsToNat (natDec n) = n := by
  unfold natDec natToBase
  split
  · simp_all; decide
  · exact digitsToNat_natToBaseAux n n le_rfl

theorem parseBase_append_one (b : Nat) (l : List Char) (c : Char) :
    parseBase b (l ++ [c]) = parseBase b l * b + hexDigitVal c := by
  unfold parseBase
  rw [List.foldl_append]
  rfl

theorem parseBase_natToBaseAux {b : Nat} {u : Bool} (hb : 2 ≤ b) (hb16 : b ≤ 16) :
    ∀ fuel n, n ≤ fuel → parseBase b (natToBaseAux b u fuel n) = n := by
  intro fuel
  induction fuel with
  | zero => intro n h; interval_cases n; simp [natToBaseAux, parseBase]
  | succ fuel ih =>
    intro n h
    cases n with
    | zero => rw [natToBaseAux_zero]; simp [parseBase]
    | succ n =>
      rw [natToBaseAux_succ, parseBase_append_one,
        ih ((n + 1) / b)
          (by
            have : (n + 1) / b < n + 1 := Nat.div_lt_self (by omega) (by omega)
            omega),
        hexDigitVal_digitChar u (by have := Nat.mod_lt (n + 1) (show 0 < b by omega); omega)]
      rw [Nat.mul_comm]
      exact Nat.div_add_mod (n + 1) b

theorem parseBase_natToBase {b : Nat} {u : Bool} (hb : 2 ≤ b) (hb16 : b ≤ 16) (n : Nat) :
    parseBase b (natToBase b u n) = n := by
  unfold natToBase
  split
  · simp_all [parseBase, hexDigitVal]
  · exact parseBase_natToBaseAux hb hb16 n n le_rfl

/-! ### Helper lemmas: the specifier parser on structured input -/

theorem scanFlags_stop {c : Char} (h : isFlagChar c = false) (cs : List Char) (z l : Bool) :
    scanFlags (c :: cs) z l = (z, l, c :: cs) := by
  have h0 : c ≠ '0' := by rintro rfl; simp [isFlagChar] at h
  have h1 : c ≠ '-' := by rintro rfl; simp [isFlagChar] at h
  rw [scanFlags.eq_def]
  split
  · simp_all
  · simp_all
  · rfl

theorem takeWhile_all {p : Char → Bool} {l : List Char} (h : ∀ a ∈ l, p a = true) :
    l.takeWhile p = l := by
  have := @List.takeWhile_append_of_pos Char p l [] h
  simpa using this

theorem dropWhile_all {p : Char → Bool} {l : List Char} (h : ∀ a ∈ l, p a = true) :
    l.dropWhile p = [] := by
  have := @List.dropWhile_append_of_pos Char p l [] h
  simpa using this

theorem intDec_ne_nil {v : Int} : intDec v ≠ [] := by
  unfold intDec
  split
  · simp
  · exact natDec_ne_nil

/-- Parse of `%0{w}d` for `w > 0`: zero-pad flag, width `w`, no
precision, no left-align. -/
theorem parse_zero_d {w : Nat} (hw : 0 < w) :
    format_spec_info.parse ('%' :: '0' :: (natDec w ++ ['d'])) =
      { format_char := 'd', width := w, precision := -1,
        zero_pad := true, left_align := false } := by
  obtain ⟨c, rest, hnd, hcf, hcd⟩ := natDec_head_of_pos hw
  have hlast : ('%' :: '0' :: (natDec w ++ ['d'])).getLastD ' ' = 'd' := by
    rw [show '%' :: '0' :: (natDec w ++ ['d']) = ('%' :: '0' :: natDec w) ++ ['d'] from rfl]
    exact List.getLastD_concat _ _ _
  have hview : (('%' :: '0' :: (natDec w ++ ['d'])).drop 1).dropLast = '0' :: natDec w := by
    rw [show ('%' :: '0' :: (natDec w ++ ['d'])).drop 1 = ('0' :: natDec w) ++ ['d'] from rfl]
    exact List.dropLast_concat
  have hflags : scanFlags ('0' :: natDec w) false false = (true, false, natDec w) := by
    rw [show scanFlags ('0' :: natDec w) false false = scanFlags (natDec w) true false from rfl]
    rw [hnd, scanFlags_stop hcf, ← hnd]
  have htake : List.takeWhile Char.isDigit (natDec w) = natDec w :=
    takeWhile_all (fun a ha => mem_natDec_isDigit a ha)
  have hdrop : List.dropWhile Char.isDigit (natDec w) = [] :=
    dropWhile_all (fun a ha => mem_natDec_isDigit a ha)
  have hne : (natDec w).isEmpty = false := by rw [hnd]; rfl
  unfold format_spec_info.parse
  rw [if_neg (by simp)]
  rw [hlast, hview]
  simp [hflags, htake, hdrop, hne, digitsToNat_natDec]

/-- Parse of `%-0{w}d` for `w > 0`: zero-pad and left-align flags, width
`w`, no precision. -/
theorem parse_left_zero_d {w : Nat} (hw : 0 < w) :
    format_spec_info.parse ('%' :: '-' :: '0' :: (natDec w ++ ['d'])) =
      { format_char := 'd', width := w, precision := -1,
        zero_pad := true, left_align := true } := by
  obtain ⟨c, rest, hnd, hcf, hcd⟩ := natDec_head_of_pos hw
  have hlast : ('%' :: '-' :: '0' :: (natDec w ++ ['d'])).getLastD ' ' = 'd' := by
    rw [show '%' :: '-' :: '0' :: (natDec w ++ ['d'])
        = ('%' :: '-' :: '0' :: natDec w) ++ ['d'] from rfl]
    exact List.getLastD_concat _ _ _
  have hview : (('%' :: '-' :: '0' :: (natDec w ++ ['d'])).drop 1).dropLast
      = '-' :: '0' :: natDec w := by
    rw [show ('%' :: '-' :: '0' :: (natDec w ++ ['d'])).drop 1
        = ('-' :: '0' :: natDec w) ++ ['d'] from rfl]
    exact List.dropLast_concat
  have hflags : scanFlags ('-' :: '0' :: natDec w) false false = (true, true, natDec w) := by
    rw [show scanFlags ('-' :: '0' :: natDec w) false false
        = scanFlags (natDec w) true true from rfl]
    rw [hnd, scanFlags_stop hcf, ← hnd]
  have htake : List.takeWhile Char.isDigit (natDec w) = natDec w :=
    takeWhile_all (fun a ha => mem_natDec_isDigit a ha)
  have hdrop : List.dropWhile Char.isDigit (natDec w) = [] :=
    dropWhile_all (fun a ha => mem_natDec_isDigit a ha)
  have hne : (natDec w).isEmpty = false := by rw [hnd]; rfl
  unfold format_spec_info.parse
  rw [if_neg (by simp)]
  rw [hlast, hview]
  simp [hflags, htake, hdrop, hne, digitsToNat_natDec]

/-! ### C1: default precision of the f conversion -/

/-- C1 counterexample: the claim says `format("%f", 3.14159)` yields
exactly 6 fractional digits, `"3.141590"`.  On the code it does not:
with unspecified precision the `'f'` branch never sets `std::fixed`, so
the double is printed with the stream's default (general) formatting. -/
theorem c1_f_default_precision_cex :
    render (.floatV q3_14159) "%f" ≠ "3.141590" := by decide

/-- C1 (amended): with unspecified precision, conversion `'f'` leaves
the stream in its default float format, so `render(3.14159, "%f")`
yields the 6-significant-digit general form `"3.14159"` (5 fractional
digits); with explicit precision 2, `render(3.14159, "%.2f")` yields
`"3.14"` as claimed. -/
theorem c1_f_default_precision :
    render (.floatV q3_14159) "%f" = "3.14159" ∧
    render (.floatV q3_14159) "%.2f" = "3.14" := by decide

/-! ### C2: stream-state reset after numeric conversions -/

/-- C2 counterexample: rendering is not independent of which numeric
conversion came before.  `"%e"` alone renders `1.0` with a lowercase
exponent, but after a preceding `"%E"` specifier the uppercase flag is
still set and the later `"%e"` renders an uppercase exponent. -/
theorem c2_numeric_state_reset_cex :
    streamPrintf "%e" [.floatV 1] = "1.000000e+00" ∧
    streamPrintf "%E %e" [.floatV 1, .floatV 1] = "1.000000E+00 1.000000E+00" ∧
    streamPrintf "%E %e" [.floatV 1, .floatV 1] ≠ "1.000000E+00 1.000000e+00" := by decide

/-! ### Helper lemmas: field effects of the stream operations -/

@[simp] theorem putPadded_base (s : OStream) (t : List Char) : (s.putPadded t).base = s.base := rfl

@[simp] theorem putPadded_upper (s : OStream) (t : List Char) :
    (s.putPadded t).upper = s.upper := rfl

@[simp] theorem putPadded_ffmt (s : OStream) (t : List Char) : (s.putPadded t).ffmt = s.ffmt := rfl

@[simp] theorem putPadded_prec (s : OStream) (t : List Char) : (s.putPadded t).prec = s.prec := rfl

@[simp] theorem putPadded_fill (s : OStream) (t : List Char) : (s.putPadded t).fill = s.fill := rfl

@[simp] theorem putPadded_leftAdj (s : OStream) (t : List Char) :
    (s.putPadded t).leftAdj = s.leftAdj := rfl

@[simp] theorem putPadded_width (s : OStream) (t : List Char) : (s.putPadded t).width = 0 := rfl

@[simp] theorem putLL_base (s : OStream) (v : Int) : (s.putLL v).base = s.base := by
  unfold OStream.putLL; split <;> rfl

@[simp] theorem putLL_ffmt (s : OStream) (v : Int) : (s.putLL v).ffmt = s.ffmt := by
  unfold OStream.putLL; split <;> rfl

@[simp] theorem putLL_fill (s : OStream) (v : Int) : (s.putLL v).fill = s.fill := by
  unfold OStream.putLL; split <;> rfl

@[simp] theorem putLL_leftAdj (s : OStream) (v : Int) : (s.putLL v).leftAdj = s.leftAdj := by
  unfold OStream.putLL; split <;> rfl

@[simp] theorem putLL_width (s : OStream) (v : Int) : (s.putLL v).width = 0 := by
  unfold OStream.putLL; split <;> rfl

@[simp] theorem putULL_base (s : OStream) (n : Nat) : (s.putULL n).base = s.base := rfl

@[simp] theorem putULL_ffmt (s : OStream) (n : Nat) : (s.putULL n).ffmt = s.ffmt := rfl

@[simp] theorem putULL_fill (s : OStream) (n : Nat) : (s.putULL n).fill = s.fill := rfl

@[simp] theorem putULL_leftAdj (s : OStream) (n : Nat) : (s.putULL n).leftAdj = s.leftAdj := rfl

@[simp] theorem putULL_upper (s : OStream) (n : Nat) : (s.putULL n).upper = s.upper := rfl

@[simp] theorem putULL_width (s : OStream) (n : Nat) : (s.putULL n).width = 0 := rfl

@[simp] theorem putDouble_base (s : OStream) (q : Rat) : (s.putDouble q).base = s.base := by
  unfold OStream.putDouble; split <;> rfl

@[simp] theorem putDouble_ffmt (s : OStream) (q : Rat) : (s.putDouble q).ffmt = s.ffmt := by
  unfold OStream.putDouble; split <;> rfl

@[simp] theorem putDouble_fill (s : OStream) (q : Rat) : (s.putDouble q).fill = s.fill := by
  unfold OStream.putDouble; split <;> rfl

@[simp] theorem putDouble_leftAdj (s : OStream) (q : Rat) :
    (s.putDouble q).leftAdj = s.leftAdj := by
  unfold OStream.putDouble; split <;> rfl

@[simp] theorem putDouble_width (s : OStream) (q : Rat) : (s.putDouble q).width = 0 := by
  unfold OStream.putDouble; split <;> rfl

@[simp] theorem widthZeroBlock_base (s : OStream) (i : format_spec_info) :
    (widthZeroBlock s i).base = s.base := by
  unfold widthZeroBlock setw setfill setLeft; split <;> (try split) <;> (try split) <;> rfl

@[simp] theorem widthZeroBlock_ffmt (s : OStream) (i : format_spec_info) :
    (widthZeroBlock s i).ffmt = s.ffmt := by
  unfold widthZeroBlock setw setfill setLeft; split <;> (try split) <;> (try split) <;> rfl

@[simp] theorem widthZeroBlock_upper (s : OStream) (i : format_spec_info) :
    (widthZeroBlock s i).upper = s.upper := by
  unfold widthZeroBlock setw setfill setLeft; split <;> (try split) <;> (try split) <;> rfl

@[simp] theorem widthZeroBlock_prec (s : OStream) (i : format_spec_info) :
    (widthZeroBlock s i).prec = s.prec := by
  unfold widthZeroBlock setw setfill setLeft; split <;> (try split) <;> (try split) <;> rfl

@[simp] theorem widthOnlyBlock_base (s : OStream) (i : format_spec_info) :
    (widthOnlyBlock s i).base = s.base := by
  unfold widthOnlyBlock setw setLeft; split <;> (try split) <;> rfl

@[simp] theorem widthOnlyBlock_ffmt (s : OStream) (i : format_spec_info) :
    (widthOnlyBlock s i).ffmt = s.ffmt := by
  unfold widthOnlyBlock setw setLeft; split <;> (try split) <;> rfl

@[simp] theorem widthOnlyBlock_upper (s : OStream) (i : format_spec_info) :
    (widthOnlyBlock s i).upper = s.upper := by
  unfold widthOnlyBlock setw setLeft; split <;> (try split) <;> rfl

@[simp] theorem widthOnlyBlock_fill (s : OStream) (i : format_spec_info) :
    (widthOnlyBlock s i).fill = s.fill := by
  unfold widthOnlyBlock setw setLeft; split <;> (try split) <;> rfl

@[simp] theorem widthOnlyBlock_prec (s : OStream) (i : format_spec_info) :
    (widthOnlyBlock s i).prec = s.prec := by
  unfold widthOnlyBlock setw setLeft; split <;> (try split) <;> rfl

theorem unsetFixed_ffmt_general {s : OStream}
    (h : s.ffmt = .fixedFmt ∨ s.ffmt = .general) : (unsetFixed s).ffmt = .general := by
  unfold unsetFixed
  split
  · rfl
  · rcases h with h | h
    · simp_all
    · exact h

theorem unsetSci_ffmt_general {s : OStream}
    (h : s.ffmt = .sciFmt ∨ s.ffmt = .general) : (unsetSci s).ffmt = .general := by
  unfold unsetSci
  split
  · rfl
  · rcases h with h | h
    · simp_all
    · exact h

@[simp] theorem unsetFixed_base (s : OStream) : (unsetFixed s).base = s.base := by
  unfold unsetFixed; split <;> rfl

@[simp] theorem unsetFixed_fill (s : OStream) : (unsetFixed s).fill = s.fill := by
  unfold unsetFixed; split <;> rfl

@[simp] theorem unsetFixed_leftAdj (s : OStream) : (unsetFixed s).leftAdj = s.leftAdj := by
  unfold unsetFixed; split <;> rfl

@[simp] theorem unsetFixed_width (s : OStream) : (unsetFixed s).width = s.width := by
  unfold unsetFixed; split <;> rfl

@[simp] theorem unsetSci_base (s : OStream) : (unsetSci s).base = s.base := by
  unfold unsetSci; split <;> rfl

@[simp] theorem unsetSci_fill (s : OStream) : (unsetSci s).fill = s.fill := by
  unfold unsetSci; split <;> rfl

@[simp] theorem unsetSci_leftAdj (s : OStream) : (unsetSci s).leftAdj = s.leftAdj := by
  unfold unsetSci; split <;> rfl

@[simp] theorem unsetSci_width (s : OStream) : (unsetSci s).width = s.width := by
  unfold unsetSci; split <;> rfl

theorem resetOK_intro {st : OStream} (h1 : st.base = 10) (h2 : st.fill = ' ')
    (h3 : st.leftAdj = false) (h4 : st.width = 0) (h5 : st.ffmt = .general) : resetOK st :=
  ⟨h1, h2, h3, h4, h5⟩

/-- C2 (amended): after rendering any specifier from a state with the
default radix, fill, alignment, width and floatfield, those five pieces
of stream state are again at their defaults (this holds for every
branch, numeric or not); but the case flag is not always reset: the
`'E'` branch leaves `std::uppercase` set, and a later `'e'` specifier
rendered under that leaked flag produces an uppercase exponent, so
rendering is not independent of the preceding conversion. -/
theorem c2_numeric_state_reset :
    (∀ (st : OStream) (v : Value) (spec : List Char),
      resetOK st → resetOK (format_argument st v spec)) ∧
    (format_argument OStream.init (.floatV 1) ['%', 'E']).upper = true ∧
    (format_argument OStream.init (.floatV 1) "%e".data).buf = "1.000000e+00".data ∧
    (format_argument { OStream.init with upper := true } (.floatV 1) "%e".data).buf
      = "1.000000E+00".data := by
  refine ⟨?_, by decide, by decide, by decide⟩
  intro st v spec h
  obtain ⟨hb, hf, hl, hw, hff⟩ := h
  have hput : ∀ t : List Char, resetOK (st.putStr t) := fun t => ⟨hb, hf, hl, rfl, hff⟩
  unfold format_argument
  split
  · exact hput _
  · split <;> (try dsimp only []) <;> (try split) <;>
      first
        | exact hput _
        | exact ⟨hb, hf, hl, rfl, hff⟩
        | (apply resetOK_intro <;>
            first
              | rfl
              | (simp [setRight, setfill, setDec, setHex, setOct, setNoUpper, setUpper,
                  hb, hf, hl, hff]; done)
              | (simp only [setRight, setfill]
                 apply unsetFixed_ffmt_general
                 split_ifs <;> simp [setPrec, setFixed, hff])
              | (simp only [setRight, setfill]
                 apply unsetSci_ffmt_general
                 left
                 split_ifs <;> simp [setPrec, setUpper, setSci])
              | (split_ifs <;>
                  (simp [setRight, setfill, setPrec, setFixed, setUpper, setSci, setDec,
                    hb, hf, hl, hff]; done)))
        | (apply resetOK_intro <;> (simp [setRight, OStream.putStr, hb, hf, hl, hff]; done))

/-- C2 witness: the reset invariant applied at a concrete state,
argument and specifier. -/
theorem c2_numeric_state_reset_w :
    resetOK (format_argument OStream.init (.intV 7) "%x".data) :=
  c2_numeric_state_reset.1 OStream.init (.intV 7) "%x".data
    ⟨rfl, rfl, rfl, rfl, rfl⟩

/-! ### C4: precision parsing for a dot with no digits -/

/-- C4 counterexample: the claim says a `'.'` with no digits after it
yields precision 0.  The parser assigns `precision` only when at least
one digit follows the `'.'`, so `"%.f"` parses with precision `-1`. -/
theorem c4_precision_parse_cex :
    (format_spec_info.parse "%.f".data).precision = -1 ∧
    (format_spec_info.parse "%.f".data).precision ≠ 0 := by decide

theorem scanFlags_restAgnostic :
    ∀ (cs : List Char) (z1 l1 z2 l2 : Bool),
      (scanFlags cs z1 l1).2.2 = (scanFlags cs z2 l2).2.2 := by
  intro cs
  induction cs with
  | nil => intro z1 l1 z2 l2; rfl
  | cons c cs ih =>
    intro z1 l1 z2 l2
    by_cases h0 : c = '0'
    · subst h0
      rw [show scanFlags ('0' :: cs) z1 l1 = scanFlags cs true l1 from rfl,
        show scanFlags ('0' :: cs) z2 l2 = scanFlags cs true l2 from rfl]
      exact ih _ _ _ _
    · by_cases h1 : c = '-'
      · subst h1
        rw [show scanFlags ('-' :: cs) z1 l1 = scanFlags cs z1 true from rfl,
          show scanFlags ('-' :: cs) z2 l2 = scanFlags cs z2 true from rfl]
        exact ih _ _ _ _
      · rw [scanFlags_stop (by simp [isFlagChar, h0, h1]),
          scanFlags_stop (by simp [isFlagChar, h0, h1])]

theorem scanFlags_flags {fl : List Char} (h : ∀ a ∈ fl, isFlagChar a = true) :
    ∀ (rest : List Char) (z l : Bool),
      (scanFlags (fl ++ rest) z l).2.2 = (scanFlags rest false false).2.2 := by
  induction fl with
  | nil => intro rest z l; exact scanFlags_restAgnostic rest z l false false
  | cons a fl ih =>
    intro rest z l
    have ha : isFlagChar a = true := h a (List.mem_cons_self a fl)
    have hfl : ∀ b ∈ fl, isFlagChar b = true := fun b hb => h b (List.mem_cons_of_mem a hb)
    rcases (show a = '0' ∨ a = '-' by
        revert ha; unfold isFlagChar; intro ha; simpa using ha) with rfl | rfl
    · rw [show scanFlags (('0' :: fl) ++ rest) z l = scanFlags (fl ++ rest) true l from rfl]
      exact ih hfl rest true l
    · rw [show scanFlags (('-' :: fl) ++ rest) z l = scanFlags (fl ++ rest) z true from rfl]
      exact ih hfl rest z true

/-- After the flags loop and the width digits, the remainder of the
specifier view is exactly the given suffix, provided the suffix is empty
or starts with a character that is neither a digit nor a flag. -/
theorem spec_rest2 {fl wd rest : List Char}
    (hf : ∀ a ∈ fl, isFlagChar a = true) (hw : ∀ a ∈ wd, a.isDigit = true)
    (hr : rest = [] ∨ ∃ c r', rest = c :: r' ∧ c.isDigit = false ∧ isFlagChar c = false) :
    ((scanFlags (fl ++ (wd ++ rest)) false false).2.2).dropWhile Char.isDigit = rest := by
  rw [scanFlags_flags hf]
  have hdrop : ∀ l : List Char, (∀ a ∈ l, a.isDigit = true) →
      (l ++ rest).dropWhile Char.isDigit = rest := by
    intro l hl
    rw [List.dropWhile_append]
    split
    · rcases hr with rfl | ⟨c, r', rfl, hcd, -⟩
      · simp
      · exact List.dropWhile_cons_of_neg (by simp [hcd])
    · rename_i hne
      rw [dropWhile_all hl] at hne
      simp at hne
  induction wd with
  | nil =>
    simp only [List.nil_append]
    rcases hr with rfl | ⟨c, r', rfl, hcd, hcf⟩
    · rfl
    · rw [scanFlags_stop hcf]
      exact List.dropWhile_cons_of_neg (by simp [hcd])
  | cons d wd ih =>
    have hd : d.isDigit = true := hw d (List.mem_cons_self d wd)
    have hwd : ∀ a ∈ wd, a.isDigit = true := fun a ha => hw a (List.mem_cons_of_mem d ha)
    by_cases h0 : d = '0'
    · subst h0
      rw [show ((('0' :: wd) ++ rest : List Char)) = '0' :: (wd ++ rest) from rfl,
        show scanFlags ('0' :: (wd ++ rest)) false false
          = scanFlags (wd ++ rest) true false from rfl,
        scanFlags_restAgnostic (wd ++ rest) true false false false]
      exact ih hwd
    · have hnf : isFlagChar d = false := by
        unfold isFlagChar
        have : d ≠ '-' := by
          intro hd2; rw [hd2] at hd; exact absurd hd (by decide)
        simp [h0, this]
      rw [show (((d :: wd) ++ rest : List Char)) = d :: (wd ++ rest) from rfl,
        scanFlags_stop hnf]
      rw [List.dropWhile_cons_of_pos (by simp [hd])]
      exact hdrop wd hwd

/-- C4 (amended): a `'.'` in the specifier followed by no digits leaves
the parsed precision at `-1` (indistinguishable from no `'.'` at all);
a `'.'` followed by digits sets the precision to their value; with no
`'.'` the precision is `-1`. -/
theorem c4_precision_parse :
    (∀ (fl wd : List Char) (c : Char),
      (∀ a ∈ fl, isFlagChar a = true) → (∀ a ∈ wd, a.isDigit = true) →
      (format_spec_info.parse ('%' :: (fl ++ (wd ++ ['.', c])))).precision = -1) ∧
    (∀ (fl wd pd : List Char) (c : Char),
      (∀ a ∈ fl, isFlagChar a = true) → (∀ a ∈ wd, a.isDigit = true) →
      pd ≠ [] → (∀ a ∈ pd, a.isDigit = true) →
      (format_spec_info.parse ('%' :: (fl ++ (wd ++ ('.' :: pd ++ [c]))))).precision
        = digitsToNat pd) ∧
    (∀ (fl wd : List Char) (c : Char),
      (∀ a ∈ fl, isFlagChar a = true) → (∀ a ∈ wd, a.isDigit = true) →
      (format_spec_info.parse ('%' :: (fl ++ (wd ++ [c])))).precision = -1) := by
  refine ⟨?_, ?_, ?_⟩
  · intro fl wd c hf hw
    have hview : (('%' :: (fl ++ (wd ++ ['.', c]))).drop 1).dropLast = fl ++ (wd ++ ['.']) := by
      rw [show ('%' :: (fl ++ (wd ++ ['.', c]))).drop 1 = fl ++ (wd ++ ['.', c]) from rfl,
        show fl ++ (wd ++ ['.', c]) = (fl ++ (wd ++ ['.'])) ++ [c] from by simp]
      exact List.dropLast_concat
    unfold format_spec_info.parse
    rw [if_neg (by simp; omega)]
    dsimp only []
    rw [hview, spec_rest2 hf hw (Or.inr ⟨'.', [], rfl, by decide, by decide⟩)]
    simp
  · intro fl wd pd c hf hw hpd hpdd
    have hview : (('%' :: (fl ++ (wd ++ ('.' :: pd ++ [c])))).drop 1).dropLast
        = fl ++ (wd ++ ('.' :: pd)) := by
      rw [show ('%' :: (fl ++ (wd ++ ('.' :: pd ++ [c])))).drop 1
          = fl ++ (wd ++ ('.' :: pd ++ [c])) from rfl,
        show fl ++ (wd ++ ('.' :: pd ++ [c])) = (fl ++ (wd ++ ('.' :: pd))) ++ [c] from by simp]
      exact List.dropLast_concat
    unfold format_spec_info.parse
    rw [if_neg (by simp; omega)]
    dsimp only []
    rw [hview, spec_rest2 hf hw (Or.inr ⟨'.', pd, rfl, by decide, by decide⟩)]
    simp [takeWhile_all hpdd, List.isEmpty_iff, hpd]
  · intro fl wd c hf hw
    have hview : (('%' :: (fl ++ (wd ++ [c]))).drop 1).dropLast = fl ++ wd := by
      rw [show ('%' :: (fl ++ (wd ++ [c]))).drop 1 = fl ++ (wd ++ [c]) from rfl,
        show fl ++ (wd ++ [c]) = (fl ++ wd) ++ [c] from by simp]
      exact List.dropLast_concat
    unfold format_spec_info.parse
    rw [if_neg (by simp; omega)]
    dsimp only []
    rw [hview, show fl ++ wd = fl ++ (wd ++ []) from by simp,
      spec_rest2 hf hw (Or.inl rfl)]

/-- C4 witness: the amended parses at concrete specifiers — `"%5.f"`
has precision `-1`, `"%5.2f"` has precision 2, `"%5f"` has precision
`-1`. -/
theorem c4_precision_parse_w :
    (format_spec_info.parse ('%' :: ([] ++ (['5'] ++ ['.', 'f'])))).precision = -1 ∧
    (format_spec_info.parse ('%' :: ([] ++ (['5'] ++ ('.' :: ['2'] ++ ['f']))))).precision = 2 ∧
    (format_spec_info.parse ('%' :: ([] ++ (['5'] ++ ['f'])))).precision = -1 := by
  refine ⟨?_, ?_, ?_⟩
  · exact c4_precision_parse.1 [] ['5'] 'f' (by simp) (by decide)
  · rw [c4_precision_parse.2.1 [] ['5'] ['2'] 'f' (by simp) (by decide) (by decide) (by decide)]
    decide
  · exact c4_precision_parse.2.2 [] ['5'] 'f' (by simp) (by decide)

/-! ### C8: width handling of the c conversion -/

/-- C8 counterexample: the claim says the requested field width is
honored by `'c'` with alignment-only padding, so the output length is at
least the width.  The `'c'` branch never applies `setw`, so
`render(65, "%5c")` is the single character `"A"`, of length 1 < 5. -/
theorem c8_char_width_cex :
    render (.intV 65) "%5c" = "A" ∧ (render (.intV 65) "%5c").length < 5 := by decide

/-- C8 (amended): the `'c'` branch emits the arithmetic value cast to a
character as exactly one character, for every integer value and every
requested width — the parsed width is ignored, so there is no padding at
all; in particular `render(65, "%5c")` is `"A"`. -/
theorem c8_char_one_char :
    (∀ (v : Int) (w : Nat),
      (format_argument OStream.init (.intV v) ('%' :: (natDec w ++ ['c']))).buf
        = [castChar (.intV v)]) ∧
    render (.intV 65) "%5c" = "A" := by
  constructor
  · intro v w
    have hlast : ('%' :: (natDec w ++ ['c'])).getLastD ' ' = 'c' := by
      rw [show '%' :: (natDec w ++ ['c']) = ('%' :: natDec w) ++ ['c'] from rfl]
      exact List.getLastD_concat _ _ _
    have hlen : ¬ ('%' :: (natDec w ++ ['c'])).length < 2 := by
      simp
    unfold format_argument format_spec_info.parse
    rw [if_neg hlen, if_neg hlen, hlast]
    simp [OStream.putChar, OStream.putPadded, OStream.init]
  · decide

/-! ### C6: width and zero padding of the d conversion -/

/-- C6: for every integer `v` and width `w` at least the length of the
decimal rendering of `v` (digits plus sign), `%0{w}d` produces output of
length exactly `w`, zero-filled on the left; with the left-align flag
the padding is trailing spaces (zero fill is suppressed) and the total
length is the same `w`. -/
theorem c6_width_zero_pad :
    ∀ (v : Int) (w : Nat), (intDec v).length ≤ w →
      ((format_argument OStream.init (.intV v) ('%' :: '0' :: (natDec w ++ ['d']))).buf
          = List.replicate (w - (intDec v).length) '0' ++ intDec v ∧
        (format_argument OStream.init (.intV v)
          ('%' :: '0' :: (natDec w ++ ['d']))).buf.length = w) ∧
      ((format_argument OStream.init (.intV v) ('%' :: '-' :: '0' :: (natDec w ++ ['d']))).buf
          = intDec v ++ List.replicate (w - (intDec v).length) ' ' ∧
        (format_argument OStream.init (.intV v)
          ('%' :: '-' :: '0' :: (natDec w ++ ['d']))).buf.length = w) := by
  intro v w hle
  have hlp : 0 < (intDec v).length := List.length_pos.mpr intDec_ne_nil
  have hpos : 0 < w := lt_of_lt_of_le hlp hle
  have hbuf1 : (format_argument OStream.init (.intV v) ('%' :: '0' :: (natDec w ++ ['d']))).buf
      = List.replicate (w - (intDec v).length) '0' ++ intDec v := by
    unfold format_argument
    rw [if_neg (by simp), parse_zero_d hpos]
    rcases Nat.lt_or_ge (intDec v).length w with hlt | hge
    · simp [widthZeroBlock, OStream.putLL, OStream.putPadded, OStream.init,
        setw, setfill, setRight, hpos, hlt, castLL]
    · have heq : (intDec v).length = w := le_antisymm hle hge
      simp [widthZeroBlock, OStream.putLL, OStream.putPadded, OStream.init,
        setw, setfill, setRight, hpos, heq, castLL]
  have hbuf2 : (format_argument OStream.init (.intV v)
        ('%' :: '-' :: '0' :: (natDec w ++ ['d']))).buf
      = intDec v ++ List.replicate (w - (intDec v).length) ' ' := by
    unfold format_argument
    rw [if_neg (by simp), parse_left_zero_d hpos]
    rcases Nat.lt_or_ge (intDec v).length w with hlt | hge
    · simp [widthZeroBlock, OStream.putLL, OStream.putPadded, OStream.init,
        setw, setfill, setLeft, setRight, hpos, hlt, castLL]
    · have heq : (intDec v).length = w := le_antisymm hle hge
      simp [widthZeroBlock, OStream.putLL, OStream.putPadded, OStream.init,
        setw, setfill, setLeft, setRight, hpos, heq, castLL]
  refine ⟨⟨hbuf1, ?_⟩, hbuf2, ?_⟩
  · rw [hbuf1]; simp; omega
  · rw [hbuf2]; simp; omega

/-- C6 witness: `%08d` of 42 is eight characters, and `%-08d` of 42 is
42 followed by six trailing spaces. -/
theorem c6_width_zero_pad_w :
    (format_argument OStream.init (.intV 42) ('%' :: '0' :: (natDec 8 ++ ['d']))).buf.length = 8 ∧
    (format_argument OStream.init (.intV 42) ('%' :: '-' :: '0' :: (natDec 8 ++ ['d']))).buf
      = intDec 42 ++ List.replicate 6 ' ' :=
  ⟨((c6_width_zero_pad 42 8 (by decide)).1).2,
    by
      have h := ((c6_width_zero_pad 42 8 (by decide)).2).1
      simpa using h⟩

/-! ### C7: hex and octal round-trip -/

/-- C7: for every nonnegative integer value (below 2^64, the range of
the `unsigned long long` the code casts to), reading the `'x'` rendering
back as a hexadecimal numeral gives the value again, and likewise for
the `'o'` rendering as an octal numeral. -/
theorem c7_base_round_trip :
    ∀ v : Nat, v < 2 ^ 64 →
      parseHex (render (.intV v) "%x") = v ∧ parseOct (render (.intV v) "%o") = v := by
  intro v hv
  have hcast : castULL (.intV v) = v := by
    show ((v : Int) % (2 ^ 64)).toNat = v
    rw [Int.emod_eq_of_lt (by positivity) (by exact_mod_cast hv)]
    exact Int.toNat_natCast v
  constructor
  · show parseBase 16 ((format_argument OStream.init (.intV v) "%x".data).buf) = v
    unfold format_argument
    rw [if_neg (by decide)]
    rw [show format_spec_info.parse "%x".data =
      { format_char := 'x', width := 0, precision := -1,
        zero_pad := false, left_align := false } from rfl]
    simp only [widthZeroBlock]
    rw [if_neg (by decide)]
    simp [setHex, setNoUpper, setDec, setRight, setfill, OStream.putULL, OStream.putPadded,
      OStream.init, hcast]
    exact parseBase_natToBase (by norm_num) (by norm_num) v
  · show parseBase 8 ((format_argument OStream.init (.intV v) "%o".data).buf) = v
    unfold format_argument
    rw [if_neg (by decide)]
    rw [show format_spec_info.parse "%o".data =
      { format_char := 'o', width := 0, precision := -1,
        zero_pad := false, left_align := false } from rfl]
    simp only [widthZeroBlock]
    rw [if_neg (by decide)]
    simp [setOct, setDec, setRight, setfill, OStream.putULL, OStream.putPadded,
      OStream.init, hcast]
    exact parseBase_natToBase (by norm_num) (by norm_num) v

/-- C7 witness: the round trip at the concrete values 255 (hex) and 64
(octal). -/
theorem c7_base_round_trip_w :
    parseHex (render (.intV 255) "%x") = 255 ∧ parseOct (render (.intV 64) "%o") = 64 :=
  ⟨(c7_base_round_trip 255 (by norm_num)).1, (c7_base_round_trip 64 (by norm_num)).2⟩

/-! ### Helper lemmas: the scanner's specifier scan -/

theorem isConvChar_cases {c : Char} (h : isConvChar c = true) :
    c = 'd' ∨ c = 'i' ∨ c = 'o' ∨ c = 'u' ∨ c = 'x' ∨ c = 'X' ∨ c = 'e' ∨ c = 'E' ∨
    c = 'f' ∨ c = 'F' ∨ c = 'g' ∨ c = 'G' ∨ c = 'a' ∨ c = 'A' ∨ c = 'c' ∨ c = 's' ∨
    c = 'p' ∨ c = 'n' := by
  simpa [isConvChar, or_assoc] using h

theorem isConvChar_not_flag {c : Char} (h : isConvChar c = true) : isFlagChar c = false := by
  rcases isConvChar_cases h with
    rfl|rfl|rfl|rfl|rfl|rfl|rfl|rfl|rfl|rfl|rfl|rfl|rfl|rfl|rfl|rfl|rfl|rfl <;> rfl

theorem isConvChar_not_digit {c : Char} (h : isConvChar c = true) : c.isDigit = false := by
  rcases isConvChar_cases h with
    rfl|rfl|rfl|rfl|rfl|rfl|rfl|rfl|rfl|rfl|rfl|rfl|rfl|rfl|rfl|rfl|rfl|rfl <;> rfl

theorem isConvChar_ne_dot {c : Char} (h : isConvChar c = true) : c ≠ '.' := by
  rcases isConvChar_cases h with
    rfl|rfl|rfl|rfl|rfl|rfl|rfl|rfl|rfl|rfl|rfl|rfl|rfl|rfl|rfl|rfl|rfl|rfl <;> decide

theorem dropWhile_append_single {p : Char → Bool} {m l : List Char} {c : Char}
    (hc : p c = false) :
    (m ++ c :: l).dropWhile p = m.dropWhile p ++ c :: l := by
  rw [List.dropWhile_append]
  split
  · rename_i hemp
    rw [List.isEmpty_iff] at hemp
    rw [hemp, List.dropWhile_cons_of_neg (by simp [hc])]
    rfl
  · rfl

/-- The scanner's specifier scan over a span of non-conversion
characters followed by a conversion character lands exactly on the
conversion character: all four skip phases stay inside the span. -/
theorem specScan_garbage {m : List Char} {conv : Char} (rest : List Char)
    (hm : ∀ a ∈ m, isConvChar a = false) (hc : isConvChar conv = true) :
    specScan (m ++ conv :: rest) = conv :: rest := by
  have hafter : ∀ m3 : List Char, (∀ a ∈ m3, isConvChar a = false) →
      (m3 ++ conv :: rest).dropWhile (fun c => !isConvChar c) = conv :: rest := by
    intro m3 hm3
    rw [dropWhile_append_single (by simp [hc]),
      dropWhile_all (fun a ha => by simp [hm3 a ha])]
    rfl
  have hmem2 : ∀ a ∈ (m.dropWhile isFlagChar).dropWhile Char.isDigit, isConvChar a = false :=
    fun a ha =>
      hm a (((List.dropWhile_sublist _).trans (List.dropWhile_sublist _)).subset ha)
  unfold specScan
  dsimp only []
  rw [dropWhile_append_single (isConvChar_not_flag hc),
    dropWhile_append_single (isConvChar_not_digit hc)]
  rcases hq : (m.dropWhile isFlagChar).dropWhile Char.isDigit with _ | ⟨c2, m2t⟩
  · simp only [List.nil_append]
    split
    · rename_i r heq
      rcases List.cons_eq_cons.mp heq with ⟨h1, -⟩
      exact absurd h1 (isConvChar_ne_dot hc)
    · exact hafter [] (by simp)
  · by_cases hdot : c2 = '.'
    · subst hdot
      rw [show (('.' :: m2t) ++ conv :: rest) = '.' :: (m2t ++ conv :: rest) from rfl]
      have hmemt : ∀ a ∈ (m2t ++ conv :: rest).dropWhile Char.isDigit,
          isConvChar a = false ∨ a = conv ∨ a ∈ rest := by
        intro a ha
        have : a ∈ m2t ++ conv :: rest := (List.dropWhile_sublist _).subset ha
        rcases List.mem_append.mp this with h | h
        · exact Or.inl (hmem2 a (by rw [hq]; exact List.mem_cons_of_mem _ h))
        · rcases List.mem_cons.mp h with h | h
          · exact Or.inr (Or.inl h)
          · exact Or.inr (Or.inr h)
      rw [show (match '.' :: (m2t ++ conv :: rest) with
          | '.' :: r => List.dropWhile Char.isDigit r
          | x => '.' :: (m2t ++ conv :: rest)) = (m2t ++ conv :: rest).dropWhile Char.isDigit
        from rfl]
      rw [dropWhile_append_single (isConvChar_not_digit hc)]
      exact hafter _ (fun a ha =>
        hmem2 a (by
          rw [hq]
          exact List.mem_cons_of_mem _ ((List.dropWhile_sublist _).subset ha)))
    · rw [show ((c2 :: m2t) ++ conv :: rest) = c2 :: (m2t ++ conv :: rest) from rfl]
      split
      · rename_i r heq
        rcases List.cons_eq_cons.mp heq with ⟨h1, -⟩
        exact absurd h1 hdot
      · exact hafter (c2 :: m2t) (fun a ha => hmem2 a (by rw [hq]; exact ha))

@[simp] theorem writeRaw_nil (s : OStream) : s.writeRaw [] = s := by
  simp [OStream.writeRaw]

/-! ### C9: totality of stringify -/

/-- C9: `stringify` is total by construction (it is a Lean function into
`List Char`); a value with none of the string / arithmetic /
generic-write capabilities yields exactly the `"[unprintable]"`
sentinel, and a null `const char*` yields the literal `"null"` without
dereference. -/
theorem c9_stringify_total :
    (∀ v : Value, v.isStringType = false → v.isArith = false → v.hasOstreamOp = false →
      stringify v = "[unprintable]".data) ∧
    stringify (.charPtr none) = "null".data := by
  constructor
  · intro v h1 h2 h3
    cases v <;> simp_all [Value.isStringType, Value.isArith, Value.hasOstreamOp, stringify]
  · rfl

/-- C9 witness: the capability-free value evaluates to the sentinel. -/
theorem c9_stringify_total_w :
    stringify .unprintableV = "[unprintable]".data :=
  c9_stringify_total.1 .unprintableV rfl rfl rfl

/-! ### Helper lemmas: step equations of the scan loop -/

theorem dropWhile_head_false {p : Char → Bool} {l r : List Char} {c : Char}
    (h : l.dropWhile p = c :: r) : p c = false := by
  induction l with
  | nil => simp at h
  | cons a l ih =>
    rw [List.dropWhile_cons] at h
    split at h
    · exact ih h
    · rename_i hp
      rcases List.cons_eq_cons.mp h with ⟨rfl, -⟩
      simpa using hp

theorem scanGo_nil_step {fuel : Nat} {cs : List Char}
    (hdw : cs.dropWhile (· ≠ '%') = []) (args : List Value) (i : Nat) (st : OStream) :
    scanGo (fuel + 1) cs args i st = st.writeRaw cs := by
  rw [scanGo, hdw]

theorem scanGo_trailing_step {fuel : Nat} {cs : List Char}
    (hdw : cs.dropWhile (· ≠ '%') = ['%']) (args : List Value) (i : Nat) (st : OStream) :
    scanGo (fuel + 1) cs args i st = (st.writeRaw (cs.takeWhile (· ≠ '%'))).putChar '%' := by
  rw [scanGo, hdw]
  rfl

theorem scanGo_escape_step {fuel : Nat} {cs rest2 : List Char}
    (hdw : cs.dropWhile (· ≠ '%') = '%' :: '%' :: rest2)
    (args : List Value) (i : Nat) (st : OStream) :
    scanGo (fuel + 1) cs args i st =
      scanGo fuel rest2 args i ((st.writeRaw (cs.takeWhile (· ≠ '%'))).putChar '%') := by
  rw [scanGo, hdw]
  rfl

theorem scanGo_invalid_step {fuel : Nat} {cs tail : List Char} {c : Char}
    (hdw : cs.dropWhile (· ≠ '%') = '%' :: c :: tail) (hc : c ≠ '%')
    (hss : specScan (c :: tail) = []) (args : List Value) (i : Nat) (st : OStream) :
    scanGo (fuel + 1) cs args i st =
      (st.writeRaw (cs.takeWhile (· ≠ '%'))).writeRaw ('%' :: c :: tail) := by
  rw [scanGo, hdw]
  split
  · rename_i heq
    simp at heq
  · rename_i tail2 heq
    rcases List.cons_eq_cons.mp heq with ⟨-, h2⟩
    subst h2
    split
    · rename_i heq2
      simp at heq2
    · rename_i heq2
      rcases List.cons_eq_cons.mp heq2 with ⟨h1, -⟩
      exact absurd h1 hc
    · rw [hss]
  · rename_i hne heq
    rcases List.cons_eq_cons.mp heq with ⟨h1, -⟩
    exact absurd h1.symm hne

theorem scanGo_spec_step {fuel : Nat} {cs tail rest3 : List Char} {c conv : Char}
    (hdw : cs.dropWhile (· ≠ '%') = '%' :: c :: tail) (hc : c ≠ '%')
    (hss : specScan (c :: tail) = conv :: rest3)
    (args : List Value) (i : Nat) (st : OStream) :
    scanGo (fuel + 1) cs args i st =
      (if h : i < args.length then
        scanGo fuel rest3 args (i + 1)
          (format_argument (st.writeRaw (cs.takeWhile (· ≠ '%')))
            (args.get ⟨i, h⟩)
            ('%' :: ((c :: tail).take ((c :: tail).length - (conv :: rest3).length) ++ [conv])))
      else
        scanGo fuel rest3 args i
          ((st.writeRaw (cs.takeWhile (· ≠ '%'))).writeRaw
            ('%' :: ((c :: tail).take ((c :: tail).length - (conv :: rest3).length)
              ++ [conv])))) := by
  rw [scanGo, hdw]
  split
  · rename_i heq
    simp at heq
  · rename_i tail2 heq
    rcases List.cons_eq_cons.mp heq with ⟨-, h2⟩
    subst h2
    split
    · rename_i heq2
      simp at heq2
    · rename_i heq2
      rcases List.cons_eq_cons.mp heq2 with ⟨h1, -⟩
      exact absurd h1 hc
    · rw [hss]
  · rename_i hne heq
    rcases List.cons_eq_cons.mp heq with ⟨h1, -⟩
    exact absurd h1.symm hne

theorem specCountGo_nil_step {fuel : Nat} {cs : List Char}
    (hdw : cs.dropWhile (· ≠ '%') = []) : specCountGo (fuel + 1) cs = 0 := by
  rw [specCountGo, hdw]

theorem specCountGo_trailing_step {fuel : Nat} {cs : List Char}
    (hdw : cs.dropWhile (· ≠ '%') = ['%']) : specCountGo (fuel + 1) cs = 0 := by
  rw [specCountGo, hdw]
  rfl

theorem specCountGo_escape_step {fuel : Nat} {cs rest2 : List Char}
    (hdw : cs.dropWhile (· ≠ '%') = '%' :: '%' :: rest2) :
    specCountGo (fuel + 1) cs = specCountGo fuel rest2 := by
  rw [specCountGo, hdw]
  rfl

theorem specCountGo_invalid_step {fuel : Nat} {cs tail : List Char} {c : Char}
    (hdw : cs.dropWhile (· ≠ '%') = '%' :: c :: tail) (hc : c ≠ '%')
    (hss : specScan (c :: tail) = []) : specCountGo (fuel + 1) cs = 0 := by
  rw [specCountGo, hdw]
  split
  · rename_i heq
    simp at heq
  · rename_i tail2 heq
    rcases List.cons_eq_cons.mp heq with ⟨-, h2⟩
    subst h2
    split
    · rename_i heq2
      simp at heq2
    · rename_i heq2
      rcases List.cons_eq_cons.mp heq2 with ⟨h1, -⟩
      exact absurd h1 hc
    · rw [hss]
  · rename_i hne heq
    rcases List.cons_eq_cons.mp heq with ⟨h1, -⟩
    exact absurd h1.symm hne

theorem specCountGo_spec_step {fuel : Nat} {cs tail rest3 : List Char} {c conv : Char}
    (hdw : cs.dropWhile (· ≠ '%') = '%' :: c :: tail) (hc : c ≠ '%')
    (hss : specScan (c :: tail) = conv :: rest3) :
    specCountGo (fuel + 1) cs = specCountGo fuel rest3 + 1 := by
  rw [specCountGo, hdw]
  split
  · rename_i heq
    simp at heq
  · rename_i tail2 heq
    rcases List.cons_eq_cons.mp heq with ⟨-, h2⟩
    subst h2
    split
    · rename_i heq2
      simp at heq2
    · rename_i heq2
      rcases List.cons_eq_cons.mp heq2 with ⟨h1, -⟩
      exact absurd h1 hc
    · rw [hss]
  · rename_i hne heq
    rcases List.cons_eq_cons.mp heq with ⟨h1, -⟩
    exact absurd h1.symm hne

/-- The scan loop never looks at arguments beyond the number of
specifiers it dispatches: appending surplus arguments changes nothing
when the dispatched specifiers fit within the original argument list. -/
theorem scanGo_append_args :
    ∀ (fuel : Nat) (cs : List Char) (args extra : List Value) (i : Nat) (st : OStream),
      i + specCountGo fuel cs ≤ args.length →
      scanGo fuel cs (args ++ extra) i st = scanGo fuel cs args i st := by
  intro fuel
  induction fuel with
  | zero => intro cs args extra i st h; rfl
  | succ fuel ih =>
    intro cs args extra i st h
    rcases hdw : cs.dropWhile (· ≠ '%') with _ | ⟨c, tail⟩
    · rw [scanGo_nil_step hdw, scanGo_nil_step hdw]
    · have hc : c = '%' := by
        have := dropWhile_head_false hdw
        simpa using this
      subst hc
      rcases tail with _ | ⟨c2, t2⟩
      · rw [scanGo_trailing_step hdw, scanGo_trailing_step hdw]
      · by_cases hc2 : c2 = '%'
        · subst hc2
          rw [scanGo_escape_step hdw, scanGo_escape_step hdw]
          rw [specCountGo_escape_step hdw] at h
          exact ih _ _ _ _ _ h
        · rcases hss : specScan (c2 :: t2) with _ | ⟨conv, r3⟩
          · rw [scanGo_invalid_step hdw hc2 hss, scanGo_invalid_step hdw hc2 hss]
          · rw [scanGo_spec_step hdw hc2 hss, scanGo_spec_step hdw hc2 hss]
            rw [specCountGo_spec_step hdw hc2 hss] at h
            have hi : i < args.length := by omega
            have hi2 : i < (args ++ extra).length := by
              rw [List.length_append]; omega
            rw [dif_pos hi, dif_pos hi2]
            have hget : (args ++ extra).get ⟨i, hi2⟩ = args.get ⟨i, hi⟩ := by
              simp [List.getElem_append_left, hi]
            rw [hget]
            exact ih _ _ _ _ _ (by omega)

/-! ### Helper lemmas: the zero-argument replace loop -/

theorem collapseSpec_cons (a : Char) (l : List Char) :
    collapseSpec (a :: l) =
      if a = '%' ∧ l.head? = some '%' then '%' :: collapseSpec l.tail
      else a :: collapseSpec l := by
  rw [collapseSpec.eq_def]
  split
  · rename_i rest heq
    rcases List.cons_eq_cons.mp heq with ⟨rfl, h2⟩
    subst h2
    rw [if_pos ⟨rfl, rfl⟩]
    rfl
  · rename_i hne heq
    rcases List.cons_eq_cons.mp heq with ⟨rfl, rfl⟩
    rw [if_neg]
    rintro ⟨rfl, hh⟩
    rcases l with _ | ⟨b, l2⟩
    · simp at hh
    · simp at hh
      subst hh
      exact hne l2 rfl rfl
  · rename_i heq
    simp at heq

theorem findPPAux_cons (a : Char) (l : List Char) (i : Nat) :
    findPPAux (a :: l) i =
      if a = '%' ∧ l.head? = some '%' then some i else findPPAux l (i + 1) := by
  rw [findPPAux.eq_def]
  split
  · rename_i rest heq
    rcases List.cons_eq_cons.mp heq with ⟨rfl, h2⟩
    subst h2
    rw [if_pos ⟨rfl, rfl⟩]
  · rename_i hne heq
    rcases List.cons_eq_cons.mp heq with ⟨rfl, rfl⟩
    rw [if_neg]
    rintro ⟨rfl, hh⟩
    rcases l with _ | ⟨b, l2⟩
    · simp at hh
    · simp at hh
      subst hh
      exact hne l2 rfl rfl
  · rename_i heq
    simp at heq

theorem findPPAux_none_collapse :
    ∀ (l : List Char), (∀ i, findPPAux l i = none → collapseSpec l = l) := by
  intro l
  induction l with
  | nil => intro i h; rfl
  | cons a l ih =>
    intro i h
    rw [findPPAux_cons] at h
    split_ifs at h with hcond
    rw [collapseSpec_cons, if_neg hcond, ih (i + 1) h]

theorem findPPAux_some_spec :
    ∀ (l : List Char) (i j : Nat), findPPAux l i = some j →
      i ≤ j ∧ j - i + 2 ≤ l.length ∧
      l.drop (j - i) = '%' :: '%' :: l.drop (j - i + 2) ∧
      collapseSpec l = l.take (j - i) ++ '%' :: collapseSpec (l.drop (j - i + 2)) := by
  intro l
  induction l with
  | nil => intro i j h; simp [findPPAux] at h
  | cons a l ih =>
    intro i j h
    rw [findPPAux_cons] at h
    split_ifs at h with hcond
    · rcases hcond with ⟨rfl, hh⟩
      rcases l with _ | ⟨b, l2⟩
      · simp at hh
      · simp at hh
        subst hh
        have hj : j = i := by simpa using h.symm
        subst hj
        refine ⟨le_rfl, ?_, ?_, ?_⟩
        · simp
        · simp
        · rw [collapseSpec_cons, if_pos ⟨rfl, rfl⟩]
          simp
    · obtain ⟨h1, h2, h3, h4⟩ := ih (i + 1) j h
      have hij : i + 1 ≤ j := h1
      have hsub : j - i = (j - (i + 1)) + 1 := by omega
      refine ⟨by omega, by simp; omega, ?_, ?_⟩
      · rw [hsub]
        simpa using h3
      · rw [collapseSpec_cons, if_neg hcond, h4, hsub]
        simp

/-- The zero-argument replace loop computes the greedy left-to-right
`"%%"` collapse of the suffix from the current position, for any
sufficient fuel. -/
theorem collapseLoop_spec :
    ∀ (fuel : Nat) (s : List Char) (pos : Nat), s.length ≤ pos + fuel →
      collapseLoop fuel s pos = s.take pos ++ collapseSpec (s.drop pos) := by
  intro fuel
  induction fuel with
  | zero =>
    intro s pos h
    rw [List.drop_of_length_le (by omega), List.take_of_length_le (by omega)]
    simp [collapseLoop, collapseSpec]
  | succ fuel ih =>
    intro s pos h
    rw [collapseLoop]
    rcases hf : findPP s pos with _ | j
    · have hnone : findPPAux (s.drop pos) pos = none := hf
      rw [findPPAux_none_collapse (s.drop pos) pos hnone]
      exact (List.take_append_drop pos s).symm
    · have hsome : findPPAux (s.drop pos) pos = some j := hf
      obtain ⟨h1, h2, h3, h4⟩ := findPPAux_some_spec (s.drop pos) pos j hsome
      rw [List.length_drop] at h2
      have hjlen : j + 2 ≤ s.length := by omega
      have hlen_take : (s.take j).length = j := by
        rw [List.length_take]; omega
      have hs' : (s.take j ++ '%' :: s.drop (j + 2)).length = s.length - 1 := by
        rw [List.length_append, hlen_take]
        simp
        omega
      show collapseLoop fuel (s.take j ++ '%' :: s.drop (j + 2)) (j + 1)
          = s.take pos ++ collapseSpec (s.drop pos)
      rw [ih (s.take j ++ '%' :: s.drop (j + 2)) (j + 1) (by rw [hs']; omega)]
      have htake : (s.take j ++ '%' :: s.drop (j + 2)).take (j + 1) = s.take j ++ ['%'] := by
        rw [show j + 1 = (s.take j).length + 1 from by rw [hlen_take], List.take_append]
        rfl
      have hdrop : (s.take j ++ '%' :: s.drop (j + 2)).drop (j + 1) = s.drop (j + 2) := by
        rw [show j + 1 = (s.take j).length + 1 from by rw [hlen_take], List.drop_append]
        rfl
      rw [htake, hdrop, h4, List.drop_drop]
      rw [show pos + (j - pos + 2) = j + 2 from by omega]
      rw [← List.append_assoc, ← List.take_add]
      rw [show pos + (j - pos) = j from by omega]
      simp

/-! ### C5: escaping of double percent signs -/

/-- C5: with zero arguments the fast path is exactly the greedy
left-to-right collapse of every `"%%"` to `"%"` with all other text
unchanged (refinement of the replace loop against the specification
function `collapseSpec`); concretely `format("100%%") = "100%"` and
`format("%%%%") = "%%"`; with one or more arguments a `"%%"` makes the
scanner emit one `'%'` and continue with the same argument index
(consuming no argument), and that emission appends exactly one `'%'`
to the buffer. -/
theorem c5_escape_collapse :
    streamPrintf "100%%" [] = "100%" ∧
    streamPrintf "%%%%" [] = "%%" ∧
    (∀ t : List Char, streamPrintfZero t = collapseSpec t) ∧
    (∀ (fuel : Nat) (rest : List Char) (args : List Value) (i : Nat) (st : OStream),
      scanGo (fuel + 1) ('%' :: '%' :: rest) args i st =
        scanGo fuel rest args i (st.putChar '%')) ∧
    (∀ st : OStream, st.width = 0 → (st.putChar '%').buf = st.buf ++ ['%']) := by
  refine ⟨by decide, by decide, ?_, ?_, ?_⟩
  · intro t
    unfold streamPrintfZero
    rw [collapseLoop_spec t.length t 0 (by omega)]
    simp
  · intro fuel rest args i st
    have hdw : ('%' :: '%' :: rest).dropWhile (· ≠ '%') = '%' :: '%' :: rest :=
      List.dropWhile_cons_of_neg (by simp)
    rw [scanGo_escape_step hdw]
    rw [show ('%' :: '%' :: rest).takeWhile (· ≠ '%') = [] from
      List.takeWhile_cons_of_neg (by simp), writeRaw_nil]
  · intro st hw
    simp [OStream.putChar, OStream.putPadded, hw]

/-- C5 witness: the refinement and the single-character emission at
concrete inputs. -/
theorem c5_escape_collapse_w :
    streamPrintfZero "ab%%cd".data = collapseSpec "ab%%cd".data ∧
    (OStream.init.putChar '%').buf = OStream.init.buf ++ ['%'] :=
  ⟨c5_escape_collapse.2.2.1 "ab%%cd".data, c5_escape_collapse.2.2.2.2 OStream.init rfl⟩

/-! ### C3: argument-count mismatch -/

/-- C3: surplus arguments are silently discarded — for every template
whose dispatched-specifier count fits in the original argument list,
appending further arguments leaves the output unchanged; a well-formed
specifier reached with the arguments exhausted is emitted as its raw
text (one scan step copies the specifier verbatim and consumes no
argument); with no arguments, `format("%d %s")` returns `"%d %s"`
unchanged; and `format("Extra: %d", 42, 99)` returns `"Extra: 42"`. -/
theorem c3_argument_count_mismatch :
    (∀ (t : String) (args extra : List Value), args ≠ [] →
      specCount t ≤ args.length → streamPrintf t (args ++ extra) = streamPrintf t args) ∧
    (∀ (fuel : Nat) (c0 : Char) (t0 rest3 : List Char) (conv : Char) (args : List Value)
        (i : Nat) (st : OStream),
      args.length ≤ i → c0 ≠ '%' → specScan (c0 :: t0) = conv :: rest3 →
      scanGo (fuel + 1) ('%' :: c0 :: t0) args i st =
        scanGo fuel rest3 args i
          (st.writeRaw ('%' :: ((c0 :: t0).take ((c0 :: t0).length - (conv :: rest3).length)
            ++ [conv])))) ∧
    streamPrintf "%d %s" [] = "%d %s" ∧
    streamPrintf "Extra: %d" [.intV 42, .intV 99] = "Extra: 42" := by
  refine ⟨?_, ?_, by decide, by decide⟩
  · intro t args extra hne hc
    rcases args with _ | ⟨a, args⟩
    · exact absurd rfl hne
    · show (scanGo t.data.length t.data ((a :: args) ++ extra) 0 OStream.init).buf.asString
        = (scanGo t.data.length t.data (a :: args) 0 OStream.init).buf.asString
      rw [scanGo_append_args t.data.length t.data (a :: args) extra 0 OStream.init
        (by simpa [specCount] using hc)]
  · intro fuel c0 t0 rest3 conv args i st hargs hc0 hss
    have hdw : ('%' :: c0 :: t0).dropWhile (· ≠ '%') = '%' :: c0 :: t0 :=
      List.dropWhile_cons_of_neg (by simp)
    rw [scanGo_spec_step hdw hc0 hss, dif_neg (by omega)]
    rw [show ('%' :: c0 :: t0).takeWhile (· ≠ '%') = [] from
      List.takeWhile_cons_of_neg (by simp), writeRaw_nil]

/-- C3 witness: appending the surplus argument 99 does not change the
output of `format("Extra: %d", 42)`. -/
theorem c3_argument_count_mismatch_w :
    streamPrintf "Extra: %d" ([.intV 42] ++ [.intV 99]) = streamPrintf "Extra: %d" [.intV 42] :=
  c3_argument_count_mismatch.1 "Extra: %d" [.intV 42] [.intV 99] (by decide) (by decide)

/-! ### C10: garbage characters inside a specifier -/

theorem take_spec_span (g l : List Char) :
    (g ++ l).take ((g ++ l).length - l.length) = g := by
  rw [List.length_append, Nat.add_sub_cancel]
  exact List.take_left g l

theorem parse_format_char (g : List Char) (conv : Char) :
    (format_spec_info.parse ('%' :: (g ++ [conv]))).format_char = conv := by
  have hlast : ('%' :: (g ++ [conv])).getLastD ' ' = conv := by
    rw [show '%' :: (g ++ [conv]) = ('%' :: g) ++ [conv] from rfl]
    exact List.getLastD_concat _ _ _
  unfold format_spec_info.parse
  rw [if_neg (by simp)]
  exact hlast

/-- C10: when `'%'` is followed by a nonempty span of characters outside
the supported conversion set (its head not `'%'`), the scanner treats
everything up to the next conversion character as a single specifier:
that whole span is consumed in one step, exactly one argument is
consumed (or, with arguments exhausted, the raw span is copied), the
later character is the parsed conversion character, and concretely
`stream_printf("%q d", 5)` renders `"5"` — the garbage characters do not
appear in the output. -/
theorem c10_garbage_specifier :
    (∀ (fuel : Nat) (c0 : Char) (g0 rest : List Char) (conv : Char)
        (args : List Value) (i : Nat) (st : OStream),
      c0 ≠ '%' → (∀ a ∈ c0 :: g0, isConvChar a = false) → isConvChar conv = true →
      scanGo (fuel + 1) ('%' :: ((c0 :: g0) ++ conv :: rest)) args i st =
        if h : i < args.length then
          scanGo fuel rest args (i + 1)
            (format_argument st (args.get ⟨i, h⟩) ('%' :: ((c0 :: g0) ++ [conv])))
        else scanGo fuel rest args i (st.writeRaw ('%' :: ((c0 :: g0) ++ [conv])))) ∧
    (∀ (g : List Char) (conv : Char),
      (format_spec_info.parse ('%' :: (g ++ [conv]))).format_char = conv) ∧
    streamPrintf "%q d" [.intV 5] = "5" := by
  refine ⟨?_, parse_format_char, by decide⟩
  intro fuel c0 g0 rest conv args i st hc0 hg hconv
  rw [scanGo]
  rw [List.dropWhile_cons_of_neg (by simp), List.takeWhile_cons_of_neg (by simp)]
  rw [writeRaw_nil]
  rw [show (c0 :: g0) ++ conv :: rest = c0 :: (g0 ++ conv :: rest) from rfl]
  split
  · rename_i heq
    simp at heq
  · rename_i tail2 heq
    rcases List.cons_eq_cons.mp heq with ⟨-, h2⟩
    subst h2
    split
    · rename_i heq2
      simp at heq2
    · rename_i rest2 heq2
      rcases List.cons_eq_cons.mp heq2 with ⟨h1, -⟩
      exact absurd h1 hc0
    · rw [show c0 :: (g0 ++ conv :: rest) = (c0 :: g0) ++ conv :: rest from rfl,
        specScan_garbage rest hg hconv]
      dsimp only []
      rw [take_spec_span (c0 :: g0) (conv :: rest)]
  · rename_i head tail2 hne heq
    rcases List.cons_eq_cons.mp heq with ⟨h1, -⟩
    exact absurd h1.symm hne

/-- C10 witness: one scan step over `"%q d"` with argument 5 consumes
the whole `%q d` span as one specifier and dispatches the argument. -/
theorem c10_garbage_specifier_w :
    scanGo 1 ('%' :: (('q' :: [' ']) ++ 'd' :: [])) [.intV 5] 0 OStream.init =
      scanGo 0 [] [.intV 5] 1
        (format_argument OStream.init (.intV 5) ('%' :: (('q' :: [' ']) ++ ['d']))) := by
  rw [c10_garbage_specifier.1 0 'q' [' '] [] 'd' [.intV 5] 0 OStream.init
    (by decide) (by decide) (by decide)]
  rfl

end Redlog
